import Mathlib

/-!
Shallow embedding of the historical-token-ownership tool (src/index.js) and
proofs about the claims of its specification.

The program is a single script: it validates CLI configuration, splits a block
range into chunks, queries transfer events for each chunk in concurrent groups,
normalizes the events into transfer records, sorts the records by
(blockNumber, transactionIndex, logIndex), folds them into an owner/asset
balance ledger, and writes the ledger to a file.

Every definition below is translated from src/index.js; line numbers in the
doc comments refer to that file.
-/

namespace TokenOwnership

/-! ## Range planning and the fetch loop (src/index.js lines 40, 49-76) -/

/-- Embeds BLOCK_SIZE (line 40). -/
def BLOCK_SIZE : Int := 250

/-- Embeds BATCH_NUMBER (line 59); the inner for-loop runs batchIdx from 0 to
BATCH_NUMBER inclusive, i.e. BATCH_NUMBER + 1 iterations. -/
def BATCH_NUMBER : Nat := 10

/-- A queried block sub-range, as passed to getEventsInRange (both ends
inclusive). -/
structure Chunk where
  fromBlock : Int
  toBlock : Int
deriving DecidableEq, Repr

/-- Embeds the inner for-loop of main (lines 61-73).  The fuel argument counts
the remaining iterations (initially BATCH_NUMBER + 1 = 11).  Each iteration
pushes the chunk for the current fromBlock/toBlock, then advances fromBlock to
toBlock + 1 and toBlock to min BLOCK_TO (toBlock + BLOCK_SIZE), and breaks out
of the loop when the updated toBlock equals BLOCK_TO (line 70-72).  The result
is the list of chunks pushed in this group together with the final values of
the fromBlock and toBlock loop variables. -/
def innerLoop (blockTo : Int) : Nat → Int → Int → List Chunk × Int × Int
  | 0, fromB, toB => ([], fromB, toB)
  | n + 1, fromB, toB =>
      let fromB2 := toB + 1
      let toB2 := min blockTo (toB + BLOCK_SIZE)
      if blockTo = toB2 then ([⟨fromB, toB⟩], fromB2, toB2)
      else
        let r := innerLoop blockTo n fromB2 toB2
        (⟨fromB, toB⟩ :: r.1, r.2)

theorem innerLoop_le (blockTo : Int) :
    ∀ (n : Nat) (fromB toB : Int), toB ≤ blockTo →
      toB ≤ (innerLoop blockTo n fromB toB).2.2 ∧
      (innerLoop blockTo n fromB toB).2.2 ≤ blockTo := by
  intro n
  induction n with
  | zero => intro fromB toB h; exact ⟨le_refl _, h⟩
  | succ n ih =>
      intro fromB toB h
      simp only [innerLoop]
      by_cases hb : blockTo = min blockTo (toB + BLOCK_SIZE)
      · simp only [if_pos hb]
        constructor
        · have : toB ≤ min blockTo (toB + BLOCK_SIZE) := by
            simp only [BLOCK_SIZE]; omega
          exact this
        · omega
      · simp only [if_neg hb]
        have h2 : min blockTo (toB + BLOCK_SIZE) ≤ blockTo := min_le_left _ _
        have h3 : toB ≤ min blockTo (toB + BLOCK_SIZE) := by
          simp only [BLOCK_SIZE]; omega
        have := ih (toB + 1) (min blockTo (toB + BLOCK_SIZE)) h2
        exact ⟨le_trans h3 this.1, this.2⟩

theorem innerLoop_lt (blockTo : Int) (n : Nat) (fromB toB : Int)
    (hn : 0 < n) (h : toB < blockTo) :
    toB < (innerLoop blockTo n fromB toB).2.2 := by
  cases n with
  | zero => omega
  | succ n =>
      simp only [innerLoop]
      have h3 : toB < min blockTo (toB + BLOCK_SIZE) := by
        simp only [BLOCK_SIZE]; omega
      by_cases hb : blockTo = min blockTo (toB + BLOCK_SIZE)
      · simp only [if_pos hb]; exact h3
      · simp only [if_neg hb]
        have h2 : min blockTo (toB + BLOCK_SIZE) ≤ blockTo := min_le_left _ _
        have := innerLoop_le blockTo n (toB + 1) (min blockTo (toB + BLOCK_SIZE)) h2
        exact lt_of_lt_of_le h3 this.1

/-- Embeds the outer while-loop of main (lines 56-76): while toBlock is below
BLOCK_TO, run one inner for-loop group (of up to 11 chunk queries, awaited
together by Promise.all) and continue with the updated loop variables.  The
result is the list of groups of chunks, in dispatch order. -/
def mainLoop (blockTo : Int) (fromB toB : Int) : List (List Chunk) :=
  if h : toB < blockTo then
    (innerLoop blockTo (BATCH_NUMBER + 1) fromB toB).1 ::
      mainLoop blockTo (innerLoop blockTo (BATCH_NUMBER + 1) fromB toB).2.1
        (innerLoop blockTo (BATCH_NUMBER + 1) fromB toB).2.2
  else []
termination_by (blockTo - toB).toNat
decreasing_by
  have := innerLoop_lt blockTo (BATCH_NUMBER + 1) fromB toB (by omega) h
  omega

/-- Embeds the fetch-loop initialization (lines 49-50) followed by the whole
batched loop: the groups of chunks the program queries for the inclusive block
range blockFrom..blockTo. -/
def mainGroups (blockFrom blockTo : Int) : List (List Chunk) :=
  mainLoop blockTo blockFrom (min blockTo (blockFrom + BLOCK_SIZE))

/-! ## Transfer records and the sort stage (src/index.js lines 79-99) -/

/-- A normalized transfer record, as pushed by getEventsInRange (lines
146-154, 170-178, 187-195).  The JavaScript fields `from` and `to` are named
from_ and to_ because `from` is a reserved word in Lean. -/
structure Transfer where
  blockNumber : Nat
  transactionIndex : Nat
  logIndex : Nat
  from_ : String
  to_ : String
  id : String
  amount : Int
deriving DecidableEq, Repr

/-- Embeds the sort comparator of lines 79-99.  Returns -1 or 1 following the
three lexicographic comparisons; when all three key components are equal the
comparator throws the string on line 98, which is modelled by Except.error. -/
def compareRecords (a b : Transfer) : Except String Int :=
  if a.blockNumber < b.blockNumber then Except.ok (-1)
  else if b.blockNumber < a.blockNumber then Except.ok 1
  else if a.transactionIndex < b.transactionIndex then Except.ok (-1)
  else if b.transactionIndex < a.transactionIndex then Except.ok 1
  else if a.logIndex < b.logIndex then Except.ok (-1)
  else if b.logIndex < a.logIndex then Except.ok 1
  else Except.error "This should never, ever happen"

/-- Inserts x into an already sorted list, calling the (throwing) comparator
against successive elements; any exception raised by the comparator
propagates.  Part of the model of Array.prototype.sort with the comparator of
lines 79-99: a comparison sort must invoke the comparator on adjacent
unordered pairs, and an exception thrown by the comparator aborts the sort. -/
def insertCmp (x : Transfer) : List Transfer → Except String (List Transfer)
  | [] => Except.ok [x]
  | y :: ys =>
      (compareRecords x y).bind fun c =>
        if c ≤ 0 then Except.ok (x :: y :: ys)
        else (insertCmp x ys).bind fun rest => Except.ok (y :: rest)

/-- Models transferRecords.sort with the comparator of lines 79-99 as a
comparison sort in the exception monad: any comparator throw aborts the whole
sort, which is how Array.prototype.sort behaves when its comparator throws. -/
def sortRecords : List Transfer → Except String (List Transfer)
  | [] => Except.ok []
  | x :: xs => (sortRecords xs).bind fun rest => insertCmp x rest

/-! ## Event normalization (src/index.js lines 131-204) -/

/-- The decoded arguments of an ERC-1155 TransferBatch event, i.e. the
contents of event.args: _from, _to, _ids, _amounts (lines 191-194). -/
structure BatchArgs where
  from_ : String
  to_ : String
  ids : List String
  amounts : List Int
deriving DecidableEq, Repr

/-- An ethers TransferBatch event object.  The decoded arrays live only under
the args field; the event object itself has no _ids property. -/
structure BatchEvent where
  blockNumber : Nat
  transactionIndex : Nat
  logIndex : Nat
  args : BatchArgs
deriving DecidableEq, Repr

/-- The value of the property access event._ids in line 186.  An ethers event
object exposes its decoded arguments only under event.args (the loop body
itself reads event.args._ids and event.args._amounts), so the top-level _ids
property is undefined, modelled as none. -/
def BatchEvent.topLevelIds (_e : BatchEvent) : Option (List String) :=
  none

/-- The index sequence enumerated by a JavaScript for...in loop over an
optional array value: for...in over undefined (or null) executes its body zero
times; over an array it enumerates the indices 0, 1, ... in order. -/
def forInKeys : Option (List String) → List Nat
  | none => []
  | some l => List.range l.length

/-- Embeds the TransferBatch expansion loop of lines 185-197: for each key idx
enumerated by the for...in loop over event._ids, push one record built from
the shared block/transaction/log fields and event.args._ids[idx],
event.args._amounts[idx]. -/
def normalizeBatchEvent (e : BatchEvent) : List Transfer :=
  (forInKeys e.topLevelIds).map fun idx =>
    { blockNumber := e.blockNumber
      transactionIndex := e.transactionIndex
      logIndex := e.logIndex
      from_ := e.args.from_
      to_ := e.args.to_
      id := e.args.ids.getD idx ""
      amount := e.args.amounts.getD idx 0 }

/-! ## Startup validation (src/index.js lines 20-38) -/

/-- The configuration read from the command line: argv.contract as an optional
string (none when the flag is absent) and parseInt(argv.erc, 10) as an
optional integer (none when parseInt returns NaN). -/
structure Cli where
  contract : Option String
  erc : Option Int
deriving DecidableEq, Repr

/-- JavaScript truthiness test negated, for an optional string: undefined and
the empty string are falsy, every other string is truthy. -/
def jsFalsyStr : Option String → Bool
  | none => true
  | some s => s.isEmpty

/-- JavaScript truthiness test negated, for an optional number: NaN (modelled
as none) and 0 are falsy. -/
def jsFalsyNum : Option Int → Bool
  | none => true
  | some n => n = 0

/-- The outcome of the top-level validation block: either the process exits
after printing a diagnostic via console.error (carrying the exit status passed
to process.exit), or execution proceeds with the selected standard. -/
inductive StartupResult where
  | exitWith (diagnostic : String) (exitCode : Nat)
  | proceed (standard : Int)
deriving DecidableEq, Repr

/-- Embeds the validation block of lines 20-38.  Each failing branch calls
console.error and then process.exit() with no argument; process.exit()
terminates with the current process.exitCode, which is 0 by default, so each
exit carries status 0. -/
def validateStartup (c : Cli) : StartupResult :=
  if jsFalsyStr c.contract ∨ (c.contract.getD "").length ≠ 42 then
    StartupResult.exitWith "Invalid Token Contract Address" 0
  else if jsFalsyNum c.erc ∨ ¬ [20, 721, 1155].contains (c.erc.getD 0) then
    StartupResult.exitWith "Invalid Token ERC Standard" 0
  else if c.erc = some 20 then
    StartupResult.exitWith "Not currently supported" 0
  else
    StartupResult.proceed (c.erc.getD 0)

/-! ## Ledger replay (src/index.js lines 102-124)

The JavaScript object ownerRecords maps each owner address to an object
mapping asset ids to balances.  JavaScript objects keep insertion order:
assigning to an existing key updates it in place, assigning to a new key
appends it.  The ledger is therefore embedded as an insertion-ordered
association list of owners, each carrying an insertion-ordered association
list of asset balances. -/

/-- An owner's asset balances, insertion ordered. -/
abbrev AssetMap := List (String × Int)

/-- The full ownership ledger, insertion ordered. -/
abbrev Ledger := List (String × AssetMap)

/-- Looks an asset id up in an asset map (hasOwnProperty plus read). -/
def lookupAsset : AssetMap → String → Option Int
  | [], _ => none
  | (k, v) :: rest, a => if k = a then some v else lookupAsset rest a

/-- Looks an owner up in the ledger (hasOwnProperty plus read). -/
def lookupOwner : Ledger → String → Option AssetMap
  | [], _ => none
  | (k, m) :: rest, o => if k = o then some m else lookupOwner rest o

/-- The ledger entry for one owner/asset pair: none when the entry is absent,
some balance when it is present. -/
def entryOf (led : Ledger) (o a : String) : Option Int :=
  match lookupOwner led o with
  | none => none
  | some m => lookupAsset m a

/-- Adds d to the entry for id in an asset map: if the key is present its
value is updated in place, otherwise the key is appended with value d.  This
is the effect of the if/else pair at lines 109-113 (with d negative) and at
lines 119-123 (with d positive). -/
def bumpAsset : AssetMap → String → Int → AssetMap
  | [], id, d => [(id, d)]
  | (k, v) :: rest, id, d =>
      if k = id then (k, v + d) :: rest
      else (k, v) :: bumpAsset rest id d

/-- Adds d to the entry for owner/id in the ledger: if the owner is absent an
owner entry is appended (the empty-object assignment of lines 105-107 and
115-117) and then its asset entry is set; if present, the owner's asset map is
bumped in place. -/
def bumpOwner : Ledger → String → String → Int → Ledger
  | [], owner, id, d => [(owner, bumpAsset [] id d)]
  | (k, m) :: rest, owner, id, d =>
      if k = owner then (k, bumpAsset m id d) :: rest
      else (k, m) :: bumpOwner rest owner id d

/-- Embeds one iteration of the replay loop body (lines 104-124): subtract the
amount from the sender's entry, then add it to the recipient's entry. -/
def applyTransfer (led : Ledger) (t : Transfer) : Ledger :=
  bumpOwner (bumpOwner led t.from_ t.id (-t.amount)) t.to_ t.id t.amount

/-- Embeds the whole replay loop (lines 102-124): fold the ordered records
into a ledger, starting from the empty object of line 102. -/
def replayLedger (ts : List Transfer) : Ledger :=
  ts.foldl applyTransfer []

/-- The sum, over all owners present in the ledger, of their balance for a
given asset id (absent entries contribute zero). -/
def sumForAsset (led : Ledger) (a : String) : Int :=
  (led.map fun p => (lookupAsset p.2 a).getD 0).sum


theorem lookupAsset_bumpAsset (m : AssetMap) (id : String) (d : Int) (a : String) :
    lookupAsset (bumpAsset m id d) a =
      if a = id then some ((lookupAsset m id).getD 0 + d) else lookupAsset m a := by
  induction m with
  | nil =>
      by_cases h : a = id
      · subst h; simp [bumpAsset, lookupAsset]
      · have h2 : ¬ id = a := fun hh => h hh.symm
        simp [bumpAsset, lookupAsset, h, h2]
  | cons p rest ih =>
      obtain ⟨k, v⟩ := p
      simp only [bumpAsset]
      by_cases hk : k = id
      · subst hk
        by_cases ha : k = a
        · subst ha; simp [lookupAsset]
        · have h2 : ¬ a = k := fun hh => ha hh.symm
          simp [lookupAsset, ha, h2]
      · simp only [if_neg hk]
        by_cases ha : k = a
        · subst ha
          have h2 : ¬ k = id := hk
          simp [lookupAsset, h2]
        · simp [lookupAsset, hk, ha, ih]

theorem lookupOwner_bumpOwner (led : Ledger) (o id : String) (d : Int) (o' : String) :
    lookupOwner (bumpOwner led o id d) o' =
      if o' = o then some (bumpAsset ((lookupOwner led o).getD []) id d)
      else lookupOwner led o' := by
  induction led with
  | nil =>
      by_cases h : o' = o
      · subst h; simp [bumpOwner, lookupOwner]
      · have h2 : ¬ o = o' := fun hh => h hh.symm
        simp [bumpOwner, lookupOwner, h, h2]
  | cons p rest ih =>
      obtain ⟨k, m⟩ := p
      simp only [bumpOwner]
      by_cases hk : k = o
      · subst hk
        by_cases ho : k = o'
        · subst ho; simp [lookupOwner]
        · have h2 : ¬ o' = k := fun hh => ho hh.symm
          simp [lookupOwner, ho, h2]
      · simp only [if_neg hk]
        by_cases ho : k = o'
        · have h2 : ¬ o' = o := fun hh => hk (ho.trans hh)
          simp [lookupOwner, ho, h2]
        · simp [lookupOwner, hk, ho, ih]

theorem entryOf_eq_bind (led : Ledger) (o a : String) :
    entryOf led o a = (lookupOwner led o).bind fun m => lookupAsset m a := by
  unfold entryOf
  cases lookupOwner led o <;> rfl

theorem bumpOwner_nil (o id : String) (d : Int) :
    bumpOwner [] o id d = [(o, bumpAsset [] id d)] := rfl

theorem bumpOwner_cons_pos (k : String) (m : AssetMap) (rest : Ledger)
    (o id : String) (d : Int) (h : k = o) :
    bumpOwner ((k, m) :: rest) o id d = (k, bumpAsset m id d) :: rest := by
  simp [bumpOwner, h]

theorem bumpOwner_cons_neg (k : String) (m : AssetMap) (rest : Ledger)
    (o id : String) (d : Int) (h : ¬ k = o) :
    bumpOwner ((k, m) :: rest) o id d = (k, m) :: bumpOwner rest o id d := by
  simp [bumpOwner, h]

theorem sumForAsset_nil (a : String) : sumForAsset [] a = 0 := rfl

theorem sumForAsset_cons (k : String) (m : AssetMap) (rest : Ledger) (a : String) :
    sumForAsset ((k, m) :: rest) a = (lookupAsset m a).getD 0 + sumForAsset rest a := by
  simp [sumForAsset]

theorem entryOf_bumpOwner (led : Ledger) (o id : String) (d : Int) (o' a' : String) :
    entryOf (bumpOwner led o id d) o' a' =
      if o' = o ∧ a' = id then some ((entryOf led o id).getD 0 + d)
      else entryOf led o' a' := by
  by_cases ho : o' = o
  · by_cases ha : a' = id
    · subst ho; subst ha
      cases hm : lookupOwner led o' with
      | none =>
          simp [entryOf_eq_bind, lookupOwner_bumpOwner, hm, lookupAsset_bumpAsset,
            lookupAsset]
      | some m =>
          simp [entryOf_eq_bind, lookupOwner_bumpOwner, hm, lookupAsset_bumpAsset]
    · subst ho
      have ha2 : ¬ id = a' := fun hh => ha hh.symm
      cases hm : lookupOwner led o' with
      | none =>
          simp [entryOf_eq_bind, lookupOwner_bumpOwner, hm, lookupAsset_bumpAsset,
            lookupAsset, ha, ha2]
      | some m =>
          simp [entryOf_eq_bind, lookupOwner_bumpOwner, hm, lookupAsset_bumpAsset, ha]
  · simp [entryOf_eq_bind, lookupOwner_bumpOwner, ho]

theorem sumForAsset_bumpOwner (led : Ledger) (o id : String) (d : Int) (a : String) :
    sumForAsset (bumpOwner led o id d) a =
      sumForAsset led a + (if a = id then d else 0) := by
  by_cases h : a = id
  · subst h
    rw [if_pos rfl]
    induction led with
    | nil =>
        rw [bumpOwner_nil, sumForAsset_cons, sumForAsset_nil,
          lookupAsset_bumpAsset, if_pos rfl]
        simp [lookupAsset]
    | cons p rest ih =>
        obtain ⟨k, m⟩ := p
        by_cases hk : k = o
        · rw [bumpOwner_cons_pos k m rest o a d hk, sumForAsset_cons, sumForAsset_cons,
            lookupAsset_bumpAsset, if_pos rfl]
          simp only [Option.getD_some]
          omega
        · rw [bumpOwner_cons_neg k m rest o a d hk, sumForAsset_cons, sumForAsset_cons, ih]
          omega
  · rw [if_neg h, add_zero]
    induction led with
    | nil =>
        rw [bumpOwner_nil, sumForAsset_cons, sumForAsset_nil,
          lookupAsset_bumpAsset, if_neg h]
        simp [lookupAsset]
    | cons p rest ih =>
        obtain ⟨k, m⟩ := p
        by_cases hk : k = o
        · rw [bumpOwner_cons_pos k m rest o id d hk, sumForAsset_cons, sumForAsset_cons,
            lookupAsset_bumpAsset, if_neg h]
        · rw [bumpOwner_cons_neg k m rest o id d hk, sumForAsset_cons, sumForAsset_cons, ih]

theorem sumForAsset_applyTransfer (led : Ledger) (t : Transfer) (a : String) :
    sumForAsset (applyTransfer led t) a = sumForAsset led a := by
  unfold applyTransfer
  rw [sumForAsset_bumpOwner, sumForAsset_bumpOwner]
  by_cases h : a = t.id
  · rw [if_pos h, if_pos h]; ring
  · rw [if_neg h, if_neg h]; ring

theorem sumForAsset_foldl (ts : List Transfer) :
    ∀ (led : Ledger) (a : String),
      sumForAsset (ts.foldl applyTransfer led) a = sumForAsset led a := by
  induction ts with
  | nil => intro led a; rfl
  | cons t rest ih =>
      intro led a
      simp only [List.foldl_cons]
      rw [ih, sumForAsset_applyTransfer]

/-! ## The whole run: fetch, sort, replay, persist (src/index.js 42-129, 206-211) -/

/-- Embeds the fetch/sort/replay body of main (lines 42-126) over an abstract
event-source capability: query is what getEventsInRange does for one chunk and
may fail (a rejected promise).  Each group of chunks is awaited together
(Promise.all, line 75) and the groups are awaited one after the other; a
failure anywhere rejects main.  The fetched per-chunk record lists are
concatenated in order, sorted with the throwing comparator, and folded into
the ledger. -/
def runMain (query : Chunk → Except String (List Transfer))
    (blockFrom blockTo : Int) : Except String Ledger :=
  ((mainGroups blockFrom blockTo).mapM fun (g : List Chunk) => g.mapM query).bind fun fetched =>
    (sortRecords (fetched.map List.flatten).flatten).bind fun sorted =>
      Except.ok (replayLedger sorted)

/-- Embeds the process-level wrapper: on success main writes the ledger file
(line 127) and the process exits with status 0 (line 207); on any rejection
nothing is written and the process exits with status 1 (lines 208-211).  The
result is the exit status together with the persisted output, none when no
file was written. -/
def runProgram (query : Chunk → Except String (List Transfer))
    (blockFrom blockTo : Int) : Nat × Option Ledger :=
  match runMain query blockFrom blockTo with
  | Except.ok led => (0, some led)
  | Except.error _ => (1, none)

theorem error_bind {A B : Type} (e : String) (k : A → Except String B) :
    (Except.error e : Except String A).bind k = Except.error e := rfl

theorem ok_bind {A B : Type} (a : A) (k : A → Except String B) :
    (Except.ok a : Except String A).bind k = k a := rfl

theorem mapM_error_of_mem {A B : Type} (f : A → Except String B) :
    ∀ (l : List A) (c : A), c ∈ l → (∃ e, f c = Except.error e) →
      ∃ e2, l.mapM f = Except.error e2 := by
  intro l
  induction l with
  | nil => intro c hc; exact absurd hc (List.not_mem_nil c)
  | cons x xs ih =>
      intro c hc he
      rw [List.mem_cons] at hc
      cases hfx : f x with
      | error e0 =>
          refine ⟨e0, ?_⟩
          rw [List.mapM_cons, hfx]
          rfl
      | ok y =>
          cases hc with
          | inl hcx =>
              obtain ⟨e, he⟩ := he
              rw [hcx, hfx] at he
              exact absurd he (by simp)
          | inr hcs =>
              obtain ⟨e2, hxs⟩ := ih c hcs he
              refine ⟨e2, ?_⟩
              rw [List.mapM_cons, hfx]
              show (xs.mapM f).bind (fun ys => Except.ok (y :: ys)) = Except.error e2
              rw [hxs]
              rfl

/-! ## Group sizes of the fetch loop -/

theorem innerLoop_length_le (blockTo : Int) :
    ∀ (n : Nat) (fromB toB : Int), (innerLoop blockTo n fromB toB).1.length ≤ n := by
  intro n
  induction n with
  | zero => intro fromB toB; simp [innerLoop]
  | succ n ih =>
      intro fromB toB
      simp only [innerLoop]
      by_cases hb : blockTo = min blockTo (toB + BLOCK_SIZE)
      · rw [if_pos hb]
        simp
      · simp only [if_neg hb, List.length_cons]
        have := ih (toB + 1) (min blockTo (toB + BLOCK_SIZE))
        omega

theorem innerLoop_full_or_break (blockTo : Int) :
    ∀ (n : Nat) (fromB toB : Int),
      (innerLoop blockTo n fromB toB).1.length = n ∨
      (innerLoop blockTo n fromB toB).2.2 = blockTo := by
  intro n
  induction n with
  | zero => intro fromB toB; left; simp [innerLoop]
  | succ n ih =>
      intro fromB toB
      simp only [innerLoop]
      by_cases hb : blockTo = min blockTo (toB + BLOCK_SIZE)
      · right
        rw [if_pos hb]
        exact hb.symm
      · simp only [if_neg hb, List.length_cons]
        cases ih (toB + 1) (min blockTo (toB + BLOCK_SIZE)) with
        | inl hl => left; omega
        | inr hr => right; exact hr

theorem mainLoop_cases (blockTo fromB toB : Int) :
    (¬ toB < blockTo ∧ mainLoop blockTo fromB toB = []) ∨
    (toB < blockTo ∧
      mainLoop blockTo fromB toB =
        (innerLoop blockTo (BATCH_NUMBER + 1) fromB toB).1 ::
          mainLoop blockTo (innerLoop blockTo (BATCH_NUMBER + 1) fromB toB).2.1
            (innerLoop blockTo (BATCH_NUMBER + 1) fromB toB).2.2) := by
  by_cases h : toB < blockTo
  · right
    refine ⟨h, ?_⟩
    conv_lhs => rw [mainLoop]
    rw [dif_pos h]
  · left
    refine ⟨h, ?_⟩
    rw [mainLoop, dif_neg h]

theorem mainLoop_group_le (blockTo : Int) :
    ∀ (k : Nat) (fromB toB : Int), (blockTo - toB).toNat ≤ k →
      ∀ g ∈ mainLoop blockTo fromB toB, g.length ≤ BATCH_NUMBER + 1 := by
  intro k
  induction k with
  | zero =>
      intro fromB toB hk g hg
      rcases mainLoop_cases blockTo fromB toB with ⟨h, he⟩ | ⟨h, he⟩
      · rw [he] at hg; exact absurd hg (List.not_mem_nil g)
      · omega
  | succ k ih =>
      intro fromB toB hk g hg
      rcases mainLoop_cases blockTo fromB toB with ⟨h, he⟩ | ⟨h, he⟩
      · rw [he] at hg; exact absurd hg (List.not_mem_nil g)
      · rw [he, List.mem_cons] at hg
        cases hg with
        | inl hg1 => rw [hg1]; exact innerLoop_length_le blockTo (BATCH_NUMBER + 1) fromB toB
        | inr hg2 =>
            have hlt := innerLoop_lt blockTo (BATCH_NUMBER + 1) fromB toB (by omega) h
            exact ih _ _ (by omega) g hg2

theorem mainLoop_group_full (blockTo : Int) :
    ∀ (k : Nat) (fromB toB : Int), (blockTo - toB).toNat ≤ k →
      ∀ i : Nat, i + 1 < (mainLoop blockTo fromB toB).length →
        ((mainLoop blockTo fromB toB).getD i []).length = BATCH_NUMBER + 1 := by
  intro k
  induction k with
  | zero =>
      intro fromB toB hk i hi
      rcases mainLoop_cases blockTo fromB toB with ⟨h, he⟩ | ⟨h, he⟩
      · rw [he] at hi; simp at hi
      · omega
  | succ k ih =>
      intro fromB toB hk i hi
      rcases mainLoop_cases blockTo fromB toB with ⟨h, he⟩ | ⟨h, he⟩
      · rw [he] at hi; simp at hi
      · have hlt := innerLoop_lt blockTo (BATCH_NUMBER + 1) fromB toB (by omega) h
        rw [he] at hi
        rw [he]
        cases i with
        | zero =>
            simp only [List.getD_cons_zero]
            simp only [List.length_cons] at hi
            have hrest : mainLoop blockTo (innerLoop blockTo (BATCH_NUMBER + 1) fromB toB).2.1
                (innerLoop blockTo (BATCH_NUMBER + 1) fromB toB).2.2 ≠ [] := by
              intro hnil
              rw [hnil] at hi
              simp at hi
            have hlt2 : (innerLoop blockTo (BATCH_NUMBER + 1) fromB toB).2.2 < blockTo := by
              rcases mainLoop_cases blockTo (innerLoop blockTo (BATCH_NUMBER + 1) fromB toB).2.1
                  (innerLoop blockTo (BATCH_NUMBER + 1) fromB toB).2.2 with ⟨h2, he2⟩ | ⟨h2, he2⟩
              · exact absurd he2 hrest
              · exact h2
            cases innerLoop_full_or_break blockTo (BATCH_NUMBER + 1) fromB toB with
            | inl hfull => exact hfull
            | inr hbreak => omega
        | succ j =>
            simp only [List.getD_cons_succ]
            simp only [List.length_cons] at hi
            exact ih _ _ (by omega) j (by omega)

/-! ## Concrete evaluations of the fetch loop -/

theorem mainGroups_1000_1500 : mainGroups 1000 1500 = [[⟨1000, 1250⟩]] := by
  have h1 : innerLoop 1500 (BATCH_NUMBER + 1) 1000 1250 = ([⟨1000, 1250⟩], 1251, 1500) := by
    decide
  have h2 : mainLoop 1500 1251 1500 = [] := by
    rw [mainLoop, dif_neg (by norm_num : ¬ (1500 : Int) < 1500)]
  have h3 : mainLoop 1500 1000 1250 = [⟨1000, 1250⟩] :: mainLoop 1500 1251 1500 := by
    conv_lhs => rw [mainLoop]
    rw [dif_pos (by norm_num : (1250 : Int) < 1500), h1]
  have h0 : mainGroups 1000 1500 = mainLoop 1500 1000 1250 := by
    show mainLoop 1500 1000 (min 1500 (1000 + BLOCK_SIZE)) = mainLoop 1500 1000 1250
    norm_num [BLOCK_SIZE]
  rw [h0, h3, h2]

/-! ## Concrete records used in the claims -/

/-- The two records the spec batch-expansion example would produce: identical
ordering key, asset ids 1 and 2. -/
def batchRecordA : Transfer :=
  { blockNumber := 1, transactionIndex := 0, logIndex := 0,
    from_ := "X", to_ := "Y", id := "1", amount := 3 }

def batchRecordB : Transfer :=
  { blockNumber := 1, transactionIndex := 0, logIndex := 0,
    from_ := "X", to_ := "Y", id := "2", amount := 5 }

/-- The batch event of the spec example: ids 1 and 2, amounts 3 and 5. -/
def exampleBatchEvent : BatchEvent :=
  { blockNumber := 7, transactionIndex := 1, logIndex := 2,
    args := { from_ := "X", to_ := "Y", ids := ["1", "2"], amounts := [3, 5] } }

/-- A transfer of 5 units of asset 1 from A to B. -/
def tAB : Transfer :=
  { blockNumber := 10, transactionIndex := 0, logIndex := 0,
    from_ := "A", to_ := "B", id := "1", amount := 5 }

/-- A transfer of 5 units of asset 1 from B to C (B in, then out: balance 0). -/
def tBC : Transfer :=
  { blockNumber := 11, transactionIndex := 0, logIndex := 1,
    from_ := "B", to_ := "C", id := "1", amount := 5 }

/-- A self-transfer: sender and recipient are the same owner. -/
def selfT : Transfer :=
  { blockNumber := 3, transactionIndex := 1, logIndex := 4,
    from_ := "A", to_ := "A", id := "7", amount := 2 }

/-- The zero address, the mint/burn sentinel owner. -/
def zeroAddress : String := "0x0000000000000000000000000000000000000000"

/-- A query that always fails, modelling a provider outage. -/
def failingQuery : Chunk → Except String (List Transfer) :=
  fun _ => Except.error "could not detect network"

/-- A Cli selecting the recognized-but-unsupported ERC-20 standard with a
well-formed 42-character contract address. -/
def erc20Cli : Cli :=
  { contract := some "0x1234567890123456789012345678901234567890", erc := some 20 }

/-- A Cli whose contract address is not 42 characters long (the 0x0 of the
usage example in the source comment). -/
def badAddrCli : Cli :=
  { contract := some "0x0", erc := some 721 }

/-- A Cli with a well-formed address but an asset-standard selector outside
the recognized set. -/
def badErcCli : Cli :=
  { contract := some "0x1234567890123456789012345678901234567890", erc := some 777 }

/-! ## Claims -/

/-- Claim C1.  The claim says the chunk sequence is contiguous, non-overlapping,
covers exactly the requested range, and has ceil((to - from + 1)/chunkSize)
chunks.  The code does not satisfy this: on the spec example from = 1000,
to = 1500 (chunk size fixed at BLOCK_SIZE = 250) the program queries exactly
one chunk, 1000..1250, instead of three chunks covering 1000..1500; every
queried chunk ends at or before block 1250, so the blocks 1251..1500
(including `to` itself) are queried by no chunk. -/
theorem claim1_chunking_drops_tail :
    mainGroups 1000 1500 = [[⟨1000, 1250⟩]] ∧
    (mainGroups 1000 1500).flatten.length = 1 ∧
    ((mainGroups 1000 1500).flatten.all fun c => decide (c.toBlock ≤ 1250)) = true := by
  rw [mainGroups_1000_1500]
  exact ⟨rfl, rfl, rfl⟩

/-- Claim C2.  The claim says the sort completes without any fatal condition on
records sharing an identical (blockNumber, transactionIndex, logIndex) key.
The code does not satisfy this: its comparator throws the string of line 98 as
soon as it compares two records with equal keys, so sorting two equal-key
records (distinct records, as produced by one batch event) aborts with that
exception instead of completing stably. -/
theorem claim2_sort_tie_throws :
    batchRecordA.blockNumber = batchRecordB.blockNumber ∧
    batchRecordA.transactionIndex = batchRecordB.transactionIndex ∧
    batchRecordA.logIndex = batchRecordB.logIndex ∧
    batchRecordA ≠ batchRecordB ∧
    sortRecords [batchRecordA, batchRecordB] =
      Except.error "This should never, ever happen" :=
  ⟨rfl, rfl, rfl, by decide, rfl⟩

/-- Claim C3.  The claim says a batch event with ids of length N yields N
records, one per array index.  The code does not satisfy this: the expansion
loop iterates for...in over event._ids, a property that is undefined on the
event object (the decoded arrays live at event.args._ids, which the loop body
itself reads), so the loop body never runs and a batch event with two ids
yields zero records instead of two. -/
theorem claim3_batch_expansion_empty :
    exampleBatchEvent.args.ids.length = 2 ∧
    normalizeBatchEvent exampleBatchEvent = [] :=
  ⟨rfl, rfl⟩

/-- Claim C4.  The claim says each invalid configuration terminates before any
fetch with a diagnostic and a NON-ZERO exit status.  The code prints the
diagnostic and terminates before fetching, but every validation branch calls
process.exit() with no argument, which exits with status 0, not non-zero:
shown here for the unsupported ERC-20 standard, a malformed address, and an
unrecognized standard. -/
theorem claim4_validation_exit_status_zero :
    validateStartup erc20Cli = StartupResult.exitWith "Not currently supported" 0 ∧
    validateStartup badAddrCli = StartupResult.exitWith "Invalid Token Contract Address" 0 ∧
    validateStartup badErcCli = StartupResult.exitWith "Invalid Token ERC Standard" 0 := by
  refine ⟨?_, ?_, ?_⟩ <;> rfl

/-- Claim C5.  If any single chunk query fails, the whole run exits with
status 1 and nothing is persisted: the program result is exit status 1 with no
written output, regardless of how many other chunks had already succeeded. -/
theorem claim5_query_failure_aborts
    (query : Chunk → Except String (List Transfer)) (blockFrom blockTo : Int)
    (c : Chunk) (hc : c ∈ (mainGroups blockFrom blockTo).flatten)
    (e : String) (he : query c = Except.error e) :
    runProgram query blockFrom blockTo = (1, none) := by
  obtain ⟨g, hg, hcg⟩ := List.mem_flatten.1 hc
  obtain ⟨e1, hge⟩ := mapM_error_of_mem query g c hcg ⟨e, he⟩
  obtain ⟨e2, hmm⟩ := mapM_error_of_mem (fun (g : List Chunk) => g.mapM query)
    (mainGroups blockFrom blockTo) g hg ⟨e1, hge⟩
  unfold runProgram runMain
  rw [hmm]
  rfl

theorem claim5_witness :
    failingQuery ⟨1000, 1250⟩ = Except.error "could not detect network" ∧
    runProgram failingQuery 1000 1500 = (1, none) := by
  have hc : (⟨1000, 1250⟩ : Chunk) ∈ (mainGroups 1000 1500).flatten := by
    rw [mainGroups_1000_1500]
    decide
  exact ⟨rfl, claim5_query_failure_aborts failingQuery 1000 1500 ⟨1000, 1250⟩ hc
    "could not detect network" rfl⟩

/-- Claim C6.  Ledger replay is a pure function of the input record sequence:
it takes no input other than the record list, so replaying equal ordered
sequences, each from a fresh empty ledger, yields identical ledgers. -/
theorem claim6_replay_deterministic (rs1 rs2 : List Transfer) (h : rs1 = rs2) :
    replayLedger rs1 = replayLedger rs2 := by
  rw [h]

theorem claim6_witness : replayLedger [tAB, tBC] = replayLedger [tAB, tBC] :=
  claim6_replay_deterministic [tAB, tBC] [tAB, tBC] rfl

/-- Claim C7.  Conservation: for any record list with no zero-address
participant, the replayed ledger sums to zero over all owners for every asset
id.  (The proof shows the invariant holds for every record list; the
zero-address hypothesis of the claim is carried but not needed, since replay
treats the zero address like any other owner.) -/
theorem claim7_conservation (ts : List Transfer)
    (h : ∀ t ∈ ts, t.from_ ≠ zeroAddress ∧ t.to_ ≠ zeroAddress) (a : String) :
    sumForAsset (replayLedger ts) a = 0 := by
  unfold replayLedger
  rw [sumForAsset_foldl]
  rfl

theorem claim7_witness :
    (∀ t ∈ [tAB, tBC], t.from_ ≠ zeroAddress ∧ t.to_ ≠ zeroAddress) ∧
    sumForAsset (replayLedger [tAB, tBC]) "1" = 0 :=
  ⟨by decide, claim7_conservation [tAB, tBC] (by decide) "1"⟩

/-- Claim C8.  The fetch stage dispatches chunk queries in groups of the fixed
size BATCH_NUMBER + 1 = 11 and awaits each whole group (Promise.all) before
dispatching the next, so at most 11 queries are outstanding at any time: every
group has at most 11 chunks, every group except possibly the last has exactly
11, and runMain awaits the groups strictly in sequence. -/
theorem claim8_fanout_groups (blockFrom blockTo : Int) :
    (∀ g ∈ mainGroups blockFrom blockTo, g.length ≤ 11) ∧
    (∀ i : Nat, i + 1 < (mainGroups blockFrom blockTo).length →
      ((mainGroups blockFrom blockTo).getD i []).length = 11) := by
  constructor
  · intro g hg
    exact mainLoop_group_le blockTo
      ((blockTo - min blockTo (blockFrom + BLOCK_SIZE)).toNat) blockFrom _ (le_refl _) g hg
  · intro i hi
    exact mainLoop_group_full blockTo
      ((blockTo - min blockTo (blockFrom + BLOCK_SIZE)).toNat) blockFrom _ (le_refl _) i hi

theorem claim8_witness :
    [(⟨1000, 1250⟩ : Chunk)] ∈ mainGroups 1000 1500 ∧
    ([(⟨1000, 1250⟩ : Chunk)]).length ≤ 11 := by
  have hg : [(⟨1000, 1250⟩ : Chunk)] ∈ mainGroups 1000 1500 := by
    rw [mainGroups_1000_1500]
    decide
  exact ⟨hg, (claim8_fanout_groups 1000 1500).1 _ hg⟩

/-- Claim C9.  A self-transfer (from = to) leaves that owner's balance for
that asset equal to its value before the record, creating an explicit
zero-valued entry when the entry was absent (the getD 0 default), and leaves
every other owner/asset entry unchanged. -/
theorem claim9_self_transfer_frame (led : Ledger) (t : Transfer)
    (h : t.from_ = t.to_) :
    entryOf (applyTransfer led t) t.to_ t.id = some ((entryOf led t.to_ t.id).getD 0) ∧
    ∀ o a : String, ¬ (o = t.to_ ∧ a = t.id) →
      entryOf (applyTransfer led t) o a = entryOf led o a := by
  constructor
  · unfold applyTransfer
    rw [entryOf_bumpOwner, if_pos ⟨rfl, rfl⟩, h, entryOf_bumpOwner, if_pos ⟨rfl, rfl⟩]
    simp only [Option.getD_some]
    congr 1
    omega
  · intro o a hoa
    unfold applyTransfer
    rw [entryOf_bumpOwner, if_neg hoa, h, entryOf_bumpOwner, if_neg hoa]

theorem claim9_witness :
    entryOf (applyTransfer [] selfT) selfT.to_ selfT.id =
      some ((entryOf [] selfT.to_ selfT.id).getD 0) ∧
    entryOf (applyTransfer [] selfT) "B" "7" = entryOf [] "B" "7" :=
  ⟨(claim9_self_transfer_frame [] selfT rfl).1,
   (claim9_self_transfer_frame [] selfT rfl).2 "B" "7" (by decide)⟩

/-- Claim C10.  Replay never removes a ledger entry: an owner/asset entry that
is present stays present through every further record of the fold, so the
final ledger can hold explicit zero balances (asset 1 moves into B and back
out, leaving B with an explicit 0 entry) while a never-referenced owner has no
entry at all - zero is representable both ways. -/
theorem claim10_entries_persist :
    (∀ (ts : List Transfer) (led : Ledger) (o a : String),
        (entryOf led o a).isSome = true →
        (entryOf (ts.foldl applyTransfer led) o a).isSome = true) ∧
    entryOf (replayLedger [tAB, tBC]) "B" "1" = some 0 ∧
    entryOf (replayLedger [tAB, tBC]) "Z" "1" = none := by
  refine ⟨?_, by decide, by decide⟩
  intro ts
  induction ts with
  | nil => intro led o a h; exact h
  | cons t rest ih =>
      intro led o a h
      simp only [List.foldl_cons]
      apply ih
      unfold applyTransfer
      rw [entryOf_bumpOwner]
      by_cases h2 : o = t.to_ ∧ a = t.id
      · rw [if_pos h2]; rfl
      · rw [if_neg h2, entryOf_bumpOwner]
        by_cases h3 : o = t.from_ ∧ a = t.id
        · rw [if_pos h3]; rfl
        · rw [if_neg h3]; exact h

theorem claim10_witness :
    (entryOf (replayLedger [tAB]) "B" "1").isSome = true ∧
    (entryOf ([tBC].foldl applyTransfer (replayLedger [tAB])) "B" "1").isSome = true :=
  ⟨by decide, claim10_entries_persist.1 [tBC] (replayLedger [tAB]) "B" "1" (by decide)⟩

end TokenOwnership
